import Mathlib

/-!
Verification of the real-time audio / inference bridge of `pesto_tilde.cpp`
(the `pesto~` Max/MSP external).

The development shallowly embeds the parts of the source the claims are
about: the `CircularBuffer` class (lines 22-76), the threshold gating and
result emission of `pesto::run_inference` (lines 656-708), the
buffer-clearing message handlers `bang` and `dspstate` together with
`pesto::feed_zeros_to_model` (lines 164-196, 631-653), the model
(re)initialisation flow `pesto::initialize_model` (lines 399-429), and the
model selection logic `find_compatible_models` / `load_best_model`
(lines 537-596).

Audio samples are embedded as rationals: the C++ code only stores, copies
and order-compares `float` samples (it performs no arithmetic on them), so
every branch taken agrees with the branch the C++ comparison takes on
exactly-representable values.  Cursor arithmetic on `size_t` is embedded as
`Nat`: both cursors start at 0 and only ever increase by 1 or by `count`,
so no subtraction ever underflows and no execution of realistic length can
wrap 64-bit counters; the bit-mask `&&&` is kept literally.
-/

/-- Mirrors `power_ceil` (pesto_tilde.cpp lines 22-29), loop part: the C++
`while (x >>= 1) power <<= 1;` first shifts `x`, then, if the shifted value
is non-zero, doubles `power` and repeats. -/
def power_ceil_loop (x power : ℕ) : ℕ :=
  if _h : x >>> 1 = 0 then power else power_ceil_loop (x >>> 1) (power <<< 1)
termination_by x
decreasing_by
  simp only [Nat.shiftRight_one] at *
  omega

/-- Mirrors `power_ceil` (pesto_tilde.cpp lines 22-29): `if (x <= 1) return 1;
int power = 2; x--;` then the shift loop. -/
def power_ceil (x : ℕ) : ℕ :=
  if x ≤ 1 then 1 else power_ceil_loop (x - 1) 2

/-- One audio sample (C++ `float`, no arithmetic performed on it). -/
abbrev Sample := ℚ

/-- Mirrors the state of C++ `class CircularBuffer` (pesto_tilde.cpp lines
32-76): the backing `std::vector<float>`, the monotonically increasing
atomic cursors, the capacity and the bit mask. -/
structure CircularBuffer where
  buffer : List Sample
  write_pos : ℕ
  read_pos : ℕ
  capacity : ℕ
  mask : ℕ

/-- Mirrors the C++ default constructor `CircularBuffer() : capacity(0),
mask(0)` with the vector empty and both atomics zero-initialised. -/
def CircularBuffer.init : CircularBuffer :=
  { buffer := [], write_pos := 0, read_pos := 0, capacity := 0, mask := 0 }

/-- Mirrors `CircularBuffer::resize` (lines 43-49): round the size up with
`power_ceil`, resize the vector (C++ `std::vector::resize` keeps the old
prefix and value-initialises any new slots to `0.0f`), reset both cursors. -/
def CircularBuffer.resize (cb : CircularBuffer) (size : ℕ) : CircularBuffer :=
  let c := power_ceil size
  { buffer := cb.buffer.take c ++ List.replicate (c - cb.buffer.length) 0,
    write_pos := 0, read_pos := 0, capacity := c, mask := c - 1 }

/-- Mirrors `CircularBuffer::put` (lines 51-55): write at `write_pos & mask`,
then increment the write cursor.  Unconditional: an overrun silently
overwrites the slot. -/
def CircularBuffer.put (cb : CircularBuffer) (sample : Sample) : CircularBuffer :=
  let pos := cb.write_pos &&& cb.mask
  { cb with buffer := cb.buffer.set pos sample, write_pos := cb.write_pos + 1 }

/-- Mirrors `CircularBuffer::available` (lines 68-70): `write_pos - read_pos`
(on `size_t`; the cursors satisfy `read_pos ≤ write_pos`, so `Nat`
subtraction agrees). -/
def CircularBuffer.available (cb : CircularBuffer) : ℕ :=
  cb.write_pos - cb.read_pos

/-- Mirrors `CircularBuffer::get` (lines 57-66).  The C++ signature is
`bool get(float* dest, size_t count)`: on success `dest[i] =
buffer[(pos + i) & mask]` for `i < count` and the read cursor advances; on
`available() < count` it returns `false` having touched nothing.  The
written `dest` contents are returned as the middle component. -/
def CircularBuffer.get (cb : CircularBuffer) (count : ℕ) :
    Bool × List Sample × CircularBuffer :=
  if cb.available < count then (false, [], cb)
  else
    let pos := cb.read_pos &&& cb.mask
    let dest := (List.range count).map (fun i => cb.buffer.getD ((pos + i) &&& cb.mask) 0)
    (true, dest, { cb with read_pos := cb.read_pos + count })

/-- Mirrors `CircularBuffer::clear` (lines 72-75): reset both cursors,
leaving the storage as is. -/
def CircularBuffer.clear (cb : CircularBuffer) : CircularBuffer :=
  { cb with write_pos := 0, read_pos := 0 }

/-- Feeding a whole list of samples through `put`, one per loop iteration of
the audio callback (pesto_tilde.cpp lines 340-343). -/
def putList (cb : CircularBuffer) (xs : List Sample) : CircularBuffer :=
  xs.foldl CircularBuffer.put cb

/-- Well-formedness tying the redundant fields together: the capacity is the
power of two `2 ^ t`, the mask is `capacity - 1`, and the backing vector has
exactly `capacity` slots.  Established by `resize` and preserved by every
other operation. -/
def CircularBuffer.WF (cb : CircularBuffer) (t : ℕ) : Prop :=
  cb.capacity = 2 ^ t ∧ cb.mask = cb.capacity - 1 ∧ cb.buffer.length = cb.capacity

/-- The three outlets of the external, in their declaration order
(pesto_tilde.cpp lines 127-129). -/
inductive Outlet where
  | pitch_output
  | confidence_output
  | amplitude_output
deriving DecidableEq

/-- Result of one opaque model call `m_module.forward`: either the
`(pitch, confidence, amplitude)` triple or a caught `c10::Error`. -/
inductive InferOutcome where
  | ok (pitch confidence amplitude : ℚ)
  | err

/-- The fields of `class pesto` the claims touch (pesto_tilde.cpp lines
598-623).  The torch module itself is opaque; model calls are passed in as a
function argument where needed. -/
structure PestoState where
  n_chunk_size : ℕ
  m_confidence_threshold : ℚ
  m_amplitude_threshold : ℚ
  m_in_buffer : CircularBuffer
  m_model_loaded : Bool
  m_dsp_active : Bool

/-- Mirrors `pesto::run_inference` (lines 656-708).  The guards in order:
no model loaded → silently return; `available() < n_chunk_size` → return;
`get` failed → return.  Then one model call (`infer` stands for the opaque
`m_module.forward`); a caught `c10::Error` emits nothing (the chunk is
already drained).  On success the three sends happen in source order:
`pitch_output` (gated, lines 694-700), then `confidence_output`, then
`amplitude_output` (lines 702-703).  Returns the new state and the list of
emitted (outlet, value) messages in emission order. -/
def run_inference (infer : List Sample → InferOutcome) (s : PestoState) :
    PestoState × List (Outlet × ℚ) :=
  if s.m_model_loaded = false then (s, [])
  else if s.m_in_buffer.available < s.n_chunk_size then (s, [])
  else
    let r := s.m_in_buffer.get s.n_chunk_size
    if r.1 = false then (s, [])
    else
      let s1 : PestoState := { s with m_in_buffer := r.2.2 }
      match infer r.2.1 with
      | InferOutcome.err => (s1, [])
      | InferOutcome.ok pitch confidence amplitude =>
        (s1,
          [(Outlet.pitch_output,
            if (s.m_confidence_threshold > 0 ∧ confidence < s.m_confidence_threshold) ∨
               (s.m_amplitude_threshold > 0 ∧ amplitude < s.m_amplitude_threshold)
            then -1500 else pitch),
           (Outlet.confidence_output, confidence),
           (Outlet.amplitude_output, amplitude)])

/-- Mirrors `pesto::clear_buffer` (lines 626-628). -/
def clear_buffer (s : PestoState) : PestoState :=
  { s with m_in_buffer := s.m_in_buffer.clear }

/-- Mirrors `pesto::feed_zeros_to_model` (lines 631-653) in the case the
model call does not raise: if no model is loaded nothing happens, otherwise
the loop feeds exactly 8 all-zero chunks of the current chunk size through
the model.  Returns the list of model inputs fed, in order. -/
def feed_zeros_to_model (s : PestoState) : List (List Sample) :=
  if s.m_model_loaded = true then
    List.replicate 8 (List.replicate s.n_chunk_size 0)
  else []

/-- Mirrors the `bang` message handler (lines 164-170): `clear_buffer();
feed_zeros_to_model();`.  Returns the new state and the model inputs fed. -/
def bang_msg (s : PestoState) : PestoState × List (List Sample) :=
  let s1 := clear_buffer s
  (s1, feed_zeros_to_model s1)

/-- Mirrors the `dspstate` message handler (lines 182-196): state 0 turns
DSP off and clears the buffer; state 1 turns DSP on; anything else is
ignored.  No model call is made on either path.  Returns the new state and
the model inputs fed (always none). -/
def dspstate_msg (s : PestoState) (state : ℤ) : PestoState × List (List Sample) :=
  if state = 0 then ({ clear_buffer s with m_dsp_active := false }, [])
  else if state = 1 then ({ s with m_dsp_active := true }, [])
  else (s, [])

/-- Mirrors `pesto::initialize_model` (lines 399-429) together with the
state mutations of a successful `load_model` (lines 520-527).  Everything
that touches the filesystem and the torch JIT loader is summarised by the
outcome argument `lo`: `some ck` means some load succeeded and the chunk
size parsed from the chosen filename is `ck` (installed at line 523);
`none` means every attempted load failed.  The handler first marks the
model unusable and clears the buffer (lines 401-405); on success
`load_model` installs the new chunk size and clears again (lines 523-527)
and `initialize_model` finally resizes the ring buffer to
`power_ceil(max(n_chunk_size, 4096))` (lines 425-428). -/
def init_model (s : PestoState) (lo : Option ℕ) : PestoState :=
  let s1 : PestoState := { s with m_model_loaded := false,
                                  m_in_buffer := s.m_in_buffer.clear }
  match lo with
  | none => s1
  | some ck =>
    let s2 : PestoState := { s1 with m_model_loaded := true, n_chunk_size := ck,
                                     m_in_buffer := s1.m_in_buffer.clear }
    { s2 with m_in_buffer := s2.m_in_buffer.resize (power_ceil (max ck 4096)) }

/-- Mirrors `pesto::find_compatible_models` (lines 537-568).  A candidate
file is given as (filename, parsed sample rate in kHz, parsed chunk size);
files whose names do not match `.*sr(\d+)k.*h(\d+)\.pt$` are simply absent
from `files`.  Keeps the candidates whose sample rate equals the stream's
`m_samplerate / 1000` and sorts them by ascending chunk size. -/
def find_compatible_models (files : List (String × ℕ × ℕ)) (sr_k : ℕ) :
    List (String × ℕ) :=
  ((files.filter (fun f => f.2.1 == sr_k)).map (fun f => (f.1, f.2.2))).mergeSort
    (fun a b => a.2 ≤ b.2)

/-- Mirrors `pesto::load_best_model` (lines 571-596) up to the selection of
the model to load: empty candidate list → nothing; a positive requested
chunk size with an exact match → that match; otherwise the first (smallest
chunk size) candidate. -/
def load_best_model (compatible : List (String × ℕ)) (target_chunk : ℤ) :
    Option (String × ℕ) :=
  if compatible.isEmpty then none
  else if 0 < target_chunk then
    match compatible.find? (fun m => (m.2 : ℤ) == target_chunk) with
    | some m => some m
    | none => compatible.head?
  else compatible.head?

/-- Decimal value of a digit run, mirroring the `std::stoi` call on the
regex capture (line 513). -/
def digitsToNat (ds : List Char) : ℕ :=
  ds.foldl (fun acc d => acc * 10 + (d.toNat - 48)) 0

/-- Mirrors the chunk-size extraction of `load_model` (lines 507-517): the
regex `.*h(\d+)\.pt$` matches exactly when the name ends in `.pt` preceded
by a non-empty digit run preceded by `h` (the greedy `.*` puts the `h` as
late as possible, so the capture is the maximal trailing digit run); the
capture parses as the new chunk size.  No upper bound is checked.  The name
is given as its character sequence. -/
def filename_chunk (name : List Char) : Option ℕ :=
  if name.reverse.take 3 = ['t', 'p', '.'] then
    let stemRev := name.reverse.drop 3
    let digitsRev := stemRev.takeWhile Char.isDigit
    if digitsRev = [] then none
    else if (stemRev.drop digitsRev.length).take 1 = ['h'] then
      some (digitsToNat digitsRev.reverse)
    else none
  else none

/-- The fixed allocation `m_model_input_buffer =
std::make_unique<float[]>(1024)` with its comment `// Max chunk size`
(line 371). -/
def model_input_buffer_size : ℕ := 1024

/-- The indices of `m_model_input_buffer` that `run_inference` writes when
the installed chunk size is `n`: `get(m_model_input_buffer.get(),
n_chunk_size)` (line 670) fills `dest[i]` for every `i < count`
(lines 61-63). -/
def model_input_write_indices (n : ℕ) : List ℕ := List.range n

/-- A concrete buffer of capacity 4 holding three unread samples. -/
def cbHeld : CircularBuffer := putList (CircularBuffer.init.resize 4) [1, 2, 3]

/-- A concrete object state with a loaded model, chunk size 4, both
thresholds disabled, and 4 unread samples buffered: inference is ready to
fire. -/
def sReady : PestoState :=
  { n_chunk_size := 4, m_confidence_threshold := 0, m_amplitude_threshold := 0,
    m_in_buffer := putList (CircularBuffer.init.resize 8) [1, 2, 3, 4],
    m_model_loaded := true, m_dsp_active := true }

/-- State `sReady` with the confidence threshold attribute set to 0.5. -/
def sGate : PestoState := { sReady with m_confidence_threshold := 1/2 }

/-- A model call returning pitch 60, confidence 1, amplitude 1. -/
def inferConst : List Sample → InferOutcome := fun _ => InferOutcome.ok 60 1 1

/-- A model call returning pitch 60, confidence 0.3, amplitude 1. -/
def inferGate : List Sample → InferOutcome := fun _ => InferOutcome.ok 60 (3/10) 1

/-- Concrete model directory listing: one 44 kHz model with chunk size 512
and one 48 kHz model with chunk size 256. -/
def files0 : List (String × ℕ × ℕ) :=
  [("20250101_sr44k_h512.pt", 44, 512), ("20250101_sr48k_h256.pt", 48, 256)]

theorem power_ceil_loop_eq :
    ∀ x p, 1 ≤ x → power_ceil_loop x p = p * 2 ^ Nat.log 2 x := by
  intro x
  induction x using Nat.strong_induction_on with
  | _ x ih =>
    intro p hx
    rw [power_ceil_loop]
    by_cases h : x >>> 1 = 0
    · rw [dif_pos h]
      have hx1 : x = 1 := by
        simp only [Nat.shiftRight_one] at h
        omega
      subst hx1
      simp
    · rw [dif_neg h]
      have hx2 : 2 ≤ x := by
        simp only [Nat.shiftRight_one] at h
        omega
      have hlt : x >>> 1 < x := by
        simp only [Nat.shiftRight_one]
        omega
      have hge : 1 ≤ x >>> 1 := by
        simp only [Nat.shiftRight_one] at h ⊢
        omega
      rw [ih _ hlt _ hge]
      have hshift : x >>> 1 = x / 2 := Nat.shiftRight_one x
      have hlog : Nat.log 2 (x / 2) = Nat.log 2 x - 1 := Nat.log_div_base 2 x
      have hpos : 0 < Nat.log 2 x := Nat.log_pos (by norm_num) hx2
      obtain ⟨m, hm⟩ : ∃ m, Nat.log 2 x = m + 1 :=
        ⟨Nat.log 2 x - 1, (Nat.succ_pred_eq_of_pos hpos).symm⟩
      rw [hshift, hlog, hm, Nat.shiftLeft_eq]
      simp [pow_succ]
      ring

theorem power_ceil_eq (x : ℕ) (hx : 2 ≤ x) :
    power_ceil x = 2 ^ (Nat.log 2 (x - 1) + 1) := by
  rw [power_ceil, if_neg (by omega), power_ceil_loop_eq _ _ (by omega), pow_succ]
  ring

/-- The function `power_ceil` always returns a power of two. -/
theorem power_ceil_is_pow (x : ℕ) : ∃ t, power_ceil x = 2 ^ t := by
  by_cases h : x ≤ 1
  · exact ⟨0, by rw [power_ceil, if_pos h]; norm_num⟩
  · exact ⟨Nat.log 2 (x - 1) + 1, power_ceil_eq x (by omega)⟩

/-- Rounding up: the result of `power_ceil` is at least the argument. -/
theorem le_power_ceil (x : ℕ) : x ≤ power_ceil x := by
  by_cases h : x ≤ 1
  · rw [power_ceil, if_pos h]
    omega
  · rw [power_ceil_eq x (by omega)]
    have := Nat.lt_pow_succ_log_self (b := 2) (by norm_num) (x - 1)
    omega

/-- Minimality: `power_ceil x` is at most any power of two that is ≥ x. -/
theorem power_ceil_le_pow (x t : ℕ) (h : x ≤ 2 ^ t) : power_ceil x ≤ 2 ^ t := by
  by_cases h1 : x ≤ 1
  · rw [power_ceil, if_pos h1]
    exact Nat.one_le_two_pow
  · rw [power_ceil_eq x (by omega)]
    have hlow : 2 ^ Nat.log 2 (x - 1) ≤ x - 1 :=
      Nat.pow_log_le_self 2 (by omega)
    have hlt : 2 ^ Nat.log 2 (x - 1) < 2 ^ t := by omega
    have := (Nat.pow_lt_pow_iff_right (by norm_num : 1 < 2)).mp hlt
    exact Nat.pow_le_pow_right (by norm_num) (by omega)

theorem power_ceil_pos (x : ℕ) : 1 ≤ power_ceil x := by
  obtain ⟨t, ht⟩ := power_ceil_is_pow x
  rw [ht]
  exact Nat.one_le_two_pow

theorem power_ceil_two_pow (t : ℕ) : power_ceil (2 ^ t) = 2 ^ t :=
  Nat.le_antisymm (power_ceil_le_pow _ _ le_rfl) (le_power_ceil _)

theorem resize_WF (cb : CircularBuffer) (size : ℕ) :
    ∃ t, (cb.resize size).WF t := by
  obtain ⟨t, ht⟩ := power_ceil_is_pow size
  refine ⟨t, ht, rfl, ?_⟩
  show (cb.buffer.take (power_ceil size) ++
      List.replicate (power_ceil size - cb.buffer.length) 0).length = power_ceil size
  simp [List.length_take]
  omega

@[simp] theorem put_read_pos (cb : CircularBuffer) (s : Sample) :
    (cb.put s).read_pos = cb.read_pos := rfl

@[simp] theorem put_write_pos (cb : CircularBuffer) (s : Sample) :
    (cb.put s).write_pos = cb.write_pos + 1 := rfl

@[simp] theorem put_capacity (cb : CircularBuffer) (s : Sample) :
    (cb.put s).capacity = cb.capacity := rfl

@[simp] theorem put_mask (cb : CircularBuffer) (s : Sample) :
    (cb.put s).mask = cb.mask := rfl

@[simp] theorem put_buffer_length (cb : CircularBuffer) (s : Sample) :
    (cb.put s).buffer.length = cb.buffer.length := by
  simp [CircularBuffer.put]

@[simp] theorem putList_nil (cb : CircularBuffer) : putList cb [] = cb := rfl

theorem putList_append (cb : CircularBuffer) (xs : List Sample) (x : Sample) :
    putList cb (xs ++ [x]) = (putList cb xs).put x := by
  simp [putList, List.foldl_append]

theorem putList_cons (cb : CircularBuffer) (x : Sample) (xs : List Sample) :
    putList cb (x :: xs) = putList (cb.put x) xs := rfl

@[simp] theorem putList_read_pos (xs : List Sample) :
    ∀ cb : CircularBuffer, (putList cb xs).read_pos = cb.read_pos := by
  induction xs with
  | nil => intro cb; rfl
  | cons x xs ih => intro cb; rw [putList_cons, ih]; rfl

@[simp] theorem putList_write_pos (xs : List Sample) :
    ∀ cb : CircularBuffer, (putList cb xs).write_pos = cb.write_pos + xs.length := by
  induction xs with
  | nil => intro cb; simp
  | cons x xs ih =>
    intro cb
    rw [putList_cons, ih]
    simp
    omega

@[simp] theorem putList_capacity (xs : List Sample) :
    ∀ cb : CircularBuffer, (putList cb xs).capacity = cb.capacity := by
  induction xs with
  | nil => intro cb; rfl
  | cons x xs ih => intro cb; rw [putList_cons, ih]; rfl

@[simp] theorem putList_mask (xs : List Sample) :
    ∀ cb : CircularBuffer, (putList cb xs).mask = cb.mask := by
  induction xs with
  | nil => intro cb; rfl
  | cons x xs ih => intro cb; rw [putList_cons, ih]; rfl

@[simp] theorem putList_buffer_length (xs : List Sample) :
    ∀ cb : CircularBuffer, (putList cb xs).buffer.length = cb.buffer.length := by
  induction xs with
  | nil => intro cb; rfl
  | cons x xs ih => intro cb; rw [putList_cons, ih]; simp

theorem putList_WF (cb : CircularBuffer) (xs : List Sample) (t : ℕ)
    (h : cb.WF t) : (putList cb xs).WF t := by
  obtain ⟨h1, h2, h3⟩ := h
  exact ⟨by simp [h1], by simp [h2], by simp [h3]⟩

@[simp] theorem resize_capacity (cb : CircularBuffer) (size : ℕ) :
    (cb.resize size).capacity = power_ceil size := rfl

@[simp] theorem resize_mask (cb : CircularBuffer) (size : ℕ) :
    (cb.resize size).mask = power_ceil size - 1 := rfl

@[simp] theorem resize_write_pos (cb : CircularBuffer) (size : ℕ) :
    (cb.resize size).write_pos = 0 := rfl

@[simp] theorem resize_read_pos (cb : CircularBuffer) (size : ℕ) :
    (cb.resize size).read_pos = 0 := rfl

@[simp] theorem resize_available (cb : CircularBuffer) (size : ℕ) :
    (cb.resize size).available = 0 := rfl

@[simp] theorem clear_write_pos (cb : CircularBuffer) :
    cb.clear.write_pos = 0 := rfl

@[simp] theorem clear_read_pos (cb : CircularBuffer) :
    cb.clear.read_pos = 0 := rfl

@[simp] theorem clear_available (cb : CircularBuffer) :
    cb.clear.available = 0 := rfl

theorem getD_set_self_q (l : List Sample) (i : ℕ) (x : Sample)
    (h : i < l.length) : (l.set i x).getD i 0 = x := by
  rw [List.getD_eq_getElem?_getD, List.getElem?_set_self h]
  rfl

theorem getD_set_ne_q (l : List Sample) (i j : ℕ) (x : Sample)
    (h : i ≠ j) : (l.set i x).getD j 0 = l.getD j 0 := by
  rw [List.getD_eq_getElem?_getD, List.getElem?_set_ne h,
    ← List.getD_eq_getElem?_getD]

theorem add_mod_ne (a d c : ℕ) (hd : 0 < d) (hdc : d < c) :
    (a + d) % c ≠ a % c := by
  intro h
  have hmod : a ≡ a + d [MOD c] := h.symm
  have hdvd : c ∣ d := by
    have := (Nat.modEq_iff_dvd' (by omega : a ≤ a + d)).mp hmod
    simpa using this
  have := Nat.le_of_dvd hd hdvd
  omega

/-- Content of the ring after a run of `put`s: every sample of the final
window of (at most) `capacity` writes is still in its slot
`(write_pos + j) % capacity`; earlier samples may have been overwritten. -/
theorem putList_buffer_getD (cb : CircularBuffer) (t : ℕ) (hwf : cb.WF t) :
    ∀ (xs : List Sample) (j : ℕ), j < xs.length →
      xs.length ≤ j + cb.capacity →
      (putList cb xs).buffer.getD ((cb.write_pos + j) % cb.capacity) 0 =
        xs.getD j 0 := by
  obtain ⟨hcap, hmask, hlen⟩ := hwf
  have hcpos : 0 < cb.capacity := by rw [hcap]; positivity
  intro xs
  induction xs using List.reverseRecOn with
  | nil =>
    intro j hj _
    simp at hj
  | append_singleton ys x ih =>
    intro j hj hwin
    rw [putList_append]
    have hidx : (putList cb ys).write_pos &&& (putList cb ys).mask =
        (cb.write_pos + ys.length) % cb.capacity := by
      rw [putList_write_pos, putList_mask, hmask, hcap,
        Nat.and_pow_two_sub_one_eq_mod]
    have hblen : (putList cb ys).buffer.length = cb.capacity := by
      rw [putList_buffer_length, hlen]
    show ((putList cb ys).buffer.set
        ((putList cb ys).write_pos &&& (putList cb ys).mask) x).getD
        ((cb.write_pos + j) % cb.capacity) 0 = (ys ++ [x]).getD j 0
    rw [hidx]
    by_cases hj2 : j = ys.length
    · subst hj2
      rw [getD_set_self_q _ _ _ (by rw [hblen]; exact Nat.mod_lt _ hcpos)]
      rw [List.getD_eq_getElem _ _ (by simp), List.getElem_concat_length _ _ _ rfl]
    · have hjlt : j < ys.length := by
        simp at hj
        omega
      have hne : (cb.write_pos + ys.length) % cb.capacity ≠
          (cb.write_pos + j) % cb.capacity := by
        have hsplit : cb.write_pos + ys.length =
            (cb.write_pos + j) + (ys.length - j) := by omega
        rw [hsplit]
        apply add_mod_ne
        · omega
        · simp at hwin
          omega
      rw [getD_set_ne_q _ _ _ _ hne]
      have := ih j hjlt (by simp at hwin ⊢; omega)
      rw [this, List.getD_append _ _ _ _ hjlt]

@[simp] theorem power_ceil_one : power_ceil 1 = 1 := by
  simpa using power_ceil_two_pow 0

@[simp] theorem power_ceil_two : power_ceil 2 = 2 := by
  simpa using power_ceil_two_pow 1

@[simp] theorem power_ceil_four : power_ceil 4 = 4 := by
  simpa using power_ceil_two_pow 2

@[simp] theorem power_ceil_eight : power_ceil 8 = 8 := by
  simpa using power_ceil_two_pow 3

@[simp] theorem power_ceil_4096 : power_ceil 4096 = 4096 := by
  simpa using power_ceil_two_pow 12

theorem putList_fresh_available (n : ℕ) (xs : List Sample) :
    (putList (CircularBuffer.init.resize n) xs).available = xs.length := by
  simp [CircularBuffer.available]

theorem get_ok (cb : CircularBuffer) (count : ℕ) (h : ¬ cb.available < count) :
    cb.get count = (true,
      (List.range count).map
        (fun i => cb.buffer.getD (((cb.read_pos &&& cb.mask) + i) &&& cb.mask) 0),
      { cb with read_pos := cb.read_pos + count }) := by
  simp [CircularBuffer.get, h]

/-- Claim C8: for n ≥ 1, `resize(n)` sets the capacity to the smallest power
of two ≥ n and resets both cursors to zero, so that immediately afterwards
`available()` is 0 even if the buffer held data before. -/
theorem resize_rounds_to_least_pow_two (cb : CircularBuffer) (n : ℕ)
    (hn : 1 ≤ n) :
    (∃ t, (cb.resize n).capacity = 2 ^ t) ∧
    n ≤ (cb.resize n).capacity ∧
    (∀ m t, m = 2 ^ t → n ≤ m → (cb.resize n).capacity ≤ m) ∧
    (cb.resize n).write_pos = 0 ∧
    (cb.resize n).read_pos = 0 ∧
    (cb.resize n).available = 0 := by
  refine ⟨power_ceil_is_pow n, le_power_ceil n, ?_, rfl, rfl, rfl⟩
  intro m t hm h
  rw [resize_capacity, hm]
  exact power_ceil_le_pow n t (by omega)

theorem cbHeld_available : cbHeld.available = 3 := putList_fresh_available 4 [1, 2, 3]

/-- Witness for the C8 theorem at n = 5 on a buffer that held data. -/
theorem resize_rounds_to_least_pow_two_witness :
    1 ≤ 5 ∧
    ((∃ t, (cbHeld.resize 5).capacity = 2 ^ t) ∧
     5 ≤ (cbHeld.resize 5).capacity ∧
     (∀ m t, m = 2 ^ t → 5 ≤ m → (cbHeld.resize 5).capacity ≤ m) ∧
     (cbHeld.resize 5).write_pos = 0 ∧
     (cbHeld.resize 5).read_pos = 0 ∧
     (cbHeld.resize 5).available = 0) :=
  ⟨by norm_num, resize_rounds_to_least_pow_two cbHeld 5 (by norm_num)⟩

/-- Claim C5: when `available() < count`, `get` returns the not-enough-data
signal `false` and the whole buffer state — read cursor, write cursor and
stored samples — is returned unchanged, and the destination is untouched. -/
theorem get_insufficient_no_mutation (cb : CircularBuffer) (count : ℕ)
    (h : cb.available < count) :
    cb.get count = (false, [], cb) := by
  simp [CircularBuffer.get, h]

/-- Witness for the C5 theorem: 3 available samples, 5 requested. -/
theorem get_insufficient_no_mutation_witness :
    cbHeld.available < 5 ∧ cbHeld.get 5 = (false, [], cbHeld) :=
  ⟨by rw [cbHeld_available]; norm_num,
   get_insufficient_no_mutation cbHeld 5 (by rw [cbHeld_available]; norm_num)⟩

/-- Claim C1, counterexample: a capacity-1 buffer fed 2 samples without any
`get` reports `available() = 2`, not `available() = capacity = 1`; in
particular the claimed invariant `available ≤ capacity` is violated. -/
theorem overrun_available_exceeds_capacity :
    (putList (CircularBuffer.init.resize 1) [5, 7]).available = 2 ∧
    (putList (CircularBuffer.init.resize 1) [5, 7]).capacity = 1 ∧
    ¬ (putList (CircularBuffer.init.resize 1) [5, 7]).available ≤
        (putList (CircularBuffer.init.resize 1) [5, 7]).capacity := by
  have h1 : (putList (CircularBuffer.init.resize 1) [5, 7]).available = 2 := by
    simpa using putList_fresh_available 1 [5, 7]
  have h2 : (putList (CircularBuffer.init.resize 1) [5, 7]).capacity = 1 := by
    simp
  exact ⟨h1, h2, by omega⟩

/-- Claim C1 (amended): feeding capacity+k samples via `put` into a fresh
buffer without any `get` leaves `available()` equal to capacity+k (the
counter is not capped, so `available ≤ capacity` does NOT hold under
overrun), while the storage still holds the most recent `capacity` samples:
slot `j % capacity` holds sample `j` for every `j` in the final window of
`capacity` writes; the older k samples were overwritten. -/
theorem overrun_keeps_most_recent (n k : ℕ) (xs : List Sample) (hn : 1 ≤ n)
    (hlen : xs.length = (CircularBuffer.init.resize n).capacity + k) :
    (putList (CircularBuffer.init.resize n) xs).available =
      (CircularBuffer.init.resize n).capacity + k ∧
    ∀ j, j < xs.length →
      xs.length ≤ j + (CircularBuffer.init.resize n).capacity →
      (putList (CircularBuffer.init.resize n) xs).buffer.getD
        (j % (CircularBuffer.init.resize n).capacity) 0 = xs.getD j 0 := by
  constructor
  · rw [putList_fresh_available, hlen]
  · intro j hj hwin
    obtain ⟨t, hwf⟩ := resize_WF CircularBuffer.init n
    have h := putList_buffer_getD (CircularBuffer.init.resize n) t hwf xs j hj hwin
    simpa using h

/-- Witness for the C1 theorem: capacity 1, k = 1, samples [5, 7]. -/
theorem overrun_keeps_most_recent_witness :
    1 ≤ 1 ∧
    ([5, 7] : List Sample).length = (CircularBuffer.init.resize 1).capacity + 1 ∧
    ((putList (CircularBuffer.init.resize 1) [5, 7]).available =
       (CircularBuffer.init.resize 1).capacity + 1 ∧
     ∀ j, j < ([5, 7] : List Sample).length →
       ([5, 7] : List Sample).length ≤ j + (CircularBuffer.init.resize 1).capacity →
       (putList (CircularBuffer.init.resize 1) [5, 7]).buffer.getD
         (j % (CircularBuffer.init.resize 1).capacity) 0 =
         ([5, 7] : List Sample).getD j 0) :=
  ⟨by norm_num, by simp,
   overrun_keeps_most_recent 1 1 [5, 7] (by norm_num) (by simp)⟩

/-- Claim C2, counterexample: capacity-1 buffer, `put 5; put 7; get 1`.
`available() = 2 ≥ 1` held at call time and `get` returns `true`, but the
destination receives [7], not the first unread value [5]: the overrun
overwrote it. -/
theorem fifo_overrun_counterexample :
    ((putList (CircularBuffer.init.resize 1) [5, 7]).get 1).1 = true ∧
    ((putList (CircularBuffer.init.resize 1) [5, 7]).get 1).2.1 = [7] ∧
    ((putList (CircularBuffer.init.resize 1) [5, 7]).get 1).2.1 ≠ [5] := by
  have hcb : CircularBuffer.init.resize 1 =
      { buffer := [0], write_pos := 0, read_pos := 0, capacity := 1, mask := 0 } := by
    simp [CircularBuffer.resize, CircularBuffer.init]
  rw [hcb]
  refine ⟨by decide, by decide, by decide⟩

/-- Claim C2 (amended): for puts followed by `get(count)` on a fresh buffer,
if `available() ≥ count` held at call time AND no overrun has occurred (the
number of samples written does not exceed the capacity), then `get` returns
`true` and the destination holds the first `count` values written that have
not yet been read, in write order; the remaining samples stay available.
Under overrun the destination can differ (see the counterexample). -/
theorem fifo_no_overrun (n count : ℕ) (xs : List Sample) (hn : 1 ≤ n)
    (hno : xs.length ≤ (CircularBuffer.init.resize n).capacity)
    (hc : count ≤ xs.length) :
    ((putList (CircularBuffer.init.resize n) xs).get count).1 = true ∧
    ((putList (CircularBuffer.init.resize n) xs).get count).2.1 = xs.take count ∧
    ((putList (CircularBuffer.init.resize n) xs).get count).2.2.available =
      xs.length - count := by
  obtain ⟨t, hwf⟩ := resize_WF CircularBuffer.init n
  have hav : (putList (CircularBuffer.init.resize n) xs).available = xs.length :=
    putList_fresh_available n xs
  have hnlt : ¬ (putList (CircularBuffer.init.resize n) xs).available < count := by
    omega
  rw [get_ok _ _ hnlt]
  obtain ⟨hcap, hmask, hlen⟩ := hwf
  have hrp : (putList (CircularBuffer.init.resize n) xs).read_pos = 0 := by simp
  have hmk : (putList (CircularBuffer.init.resize n) xs).mask = 2 ^ t - 1 := by
    rw [putList_mask, hmask, hcap]
  refine ⟨rfl, ?_, ?_⟩
  · apply List.ext_getElem
    · simp [List.length_take]
      omega
    · intro i h1 h2
      simp only [List.getElem_map, List.getElem_range]
      rw [hrp, hmk]
      have hz : 0 &&& (2 ^ t - 1) = 0 := Nat.zero_and _
      rw [hz, Nat.zero_add, Nat.and_pow_two_sub_one_eq_mod]
      have hi_count : i < count := by simpa using h1
      have hi_len : i < xs.length := by omega
      have hg := putList_buffer_getD (CircularBuffer.init.resize n) t
        ⟨hcap, hmask, hlen⟩ xs i hi_len (by rw [hcap] at hno ⊢; omega)
      rw [resize_write_pos, Nat.zero_add, hcap] at hg
      rw [hg, List.getD_eq_getElem _ _ hi_len]
      exact (List.getElem_take _).symm
  · simp [CircularBuffer.available]

/-- Witness for the C2 theorem: capacity 2, samples [3, 9], get 1. -/
theorem fifo_no_overrun_witness :
    1 ≤ 2 ∧
    ([3, 9] : List Sample).length ≤ (CircularBuffer.init.resize 2).capacity ∧
    1 ≤ ([3, 9] : List Sample).length ∧
    (((putList (CircularBuffer.init.resize 2) [3, 9]).get 1).1 = true ∧
     ((putList (CircularBuffer.init.resize 2) [3, 9]).get 1).2.1 =
       ([3, 9] : List Sample).take 1 ∧
     ((putList (CircularBuffer.init.resize 2) [3, 9]).get 1).2.2.available =
       ([3, 9] : List Sample).length - 1) :=
  ⟨by norm_num, by simp, by norm_num,
   fifo_no_overrun 2 1 [3, 9] (by norm_num) (by simp) (by norm_num)⟩

theorem run_inference_ok (infer : List Sample → InferOutcome) (s : PestoState)
    (p c a : ℚ) (hl : s.m_model_loaded = true)
    (hav : s.n_chunk_size ≤ s.m_in_buffer.available)
    (hinf : infer (s.m_in_buffer.get s.n_chunk_size).2.1 = InferOutcome.ok p c a) :
    run_inference infer s =
      ({ s with m_in_buffer := (s.m_in_buffer.get s.n_chunk_size).2.2 },
       [(Outlet.pitch_output,
         if (s.m_confidence_threshold > 0 ∧ c < s.m_confidence_threshold) ∨
            (s.m_amplitude_threshold > 0 ∧ a < s.m_amplitude_threshold)
         then -1500 else p),
        (Outlet.confidence_output, c),
        (Outlet.amplitude_output, a)]) := by
  have hnav : ¬ s.m_in_buffer.available < s.n_chunk_size := by omega
  have hget : (s.m_in_buffer.get s.n_chunk_size).1 = true := by
    rw [get_ok _ _ hnav]
  rw [run_inference]
  simp [hl, hnav, hget, hinf]

/-- Claim C3: provided the model call returns (p, c, a), `run_inference`
emits the pitch sentinel −1500 exactly when a positive confidence threshold
exceeds c or a positive amplitude threshold exceeds a (a threshold of 0
disables its gate), emits the raw pitch p otherwise, and always emits c and
a unmodified. -/
theorem threshold_gating (infer : List Sample → InferOutcome) (s : PestoState)
    (p c a : ℚ) (hl : s.m_model_loaded = true)
    (hav : s.n_chunk_size ≤ s.m_in_buffer.available)
    (hinf : infer (s.m_in_buffer.get s.n_chunk_size).2.1 = InferOutcome.ok p c a) :
    ∃ pm, (run_inference infer s).2 =
        [(Outlet.pitch_output, pm), (Outlet.confidence_output, c),
         (Outlet.amplitude_output, a)] ∧
      (((0 < s.m_confidence_threshold ∧ s.m_confidence_threshold > c) ∨
        (0 < s.m_amplitude_threshold ∧ s.m_amplitude_threshold > a)) → pm = -1500) ∧
      (¬ ((0 < s.m_confidence_threshold ∧ s.m_confidence_threshold > c) ∨
          (0 < s.m_amplitude_threshold ∧ s.m_amplitude_threshold > a)) → pm = p) ∧
      (p ≠ -1500 →
        (pm = -1500 ↔
          ((0 < s.m_confidence_threshold ∧ s.m_confidence_threshold > c) ∨
           (0 < s.m_amplitude_threshold ∧ s.m_amplitude_threshold > a)))) := by
  rw [run_inference_ok infer s p c a hl hav hinf]
  by_cases hcond : (s.m_confidence_threshold > 0 ∧ c < s.m_confidence_threshold) ∨
      (s.m_amplitude_threshold > 0 ∧ a < s.m_amplitude_threshold)
  · refine ⟨-1500, by rw [if_pos hcond], fun _ => rfl, fun hn => absurd ?_ hn, ?_⟩
    · rcases hcond with ⟨h1, h2⟩ | ⟨h1, h2⟩
      · exact Or.inl ⟨h1, h2⟩
      · exact Or.inr ⟨h1, h2⟩
    · intro _
      constructor
      · intro _
        rcases hcond with ⟨h1, h2⟩ | ⟨h1, h2⟩
        · exact Or.inl ⟨h1, h2⟩
        · exact Or.inr ⟨h1, h2⟩
      · intro _
        rfl
  · refine ⟨p, by rw [if_neg hcond], fun hc2 => absurd ?_ hcond, fun _ => rfl, ?_⟩
    · rcases hc2 with ⟨h1, h2⟩ | ⟨h1, h2⟩
      · exact Or.inl ⟨h1, h2⟩
      · exact Or.inr ⟨h1, h2⟩
    · intro hp
      constructor
      · intro hsent
        exact absurd hsent hp
      · intro hc2
        exfalso
        apply hcond
        rcases hc2 with ⟨h1, h2⟩ | ⟨h1, h2⟩
        · exact Or.inl ⟨h1, h2⟩
        · exact Or.inr ⟨h1, h2⟩

/-- Witness for the C3 theorem, realising the spec's example: confidence
threshold 0.5, model confidence 0.3. -/
theorem threshold_gating_witness :
    sGate.m_model_loaded = true ∧
    sGate.n_chunk_size ≤ sGate.m_in_buffer.available ∧
    (∃ pm, (run_inference inferGate sGate).2 =
        [(Outlet.pitch_output, pm), (Outlet.confidence_output, 3/10),
         (Outlet.amplitude_output, 1)] ∧
      (((0 < sGate.m_confidence_threshold ∧ sGate.m_confidence_threshold > 3/10) ∨
        (0 < sGate.m_amplitude_threshold ∧ sGate.m_amplitude_threshold > 1)) →
          pm = -1500) ∧
      (¬ ((0 < sGate.m_confidence_threshold ∧ sGate.m_confidence_threshold > 3/10) ∨
          (0 < sGate.m_amplitude_threshold ∧ sGate.m_amplitude_threshold > 1)) →
          pm = (60 : ℚ)) ∧
      ((60 : ℚ) ≠ -1500 →
        (pm = -1500 ↔
          ((0 < sGate.m_confidence_threshold ∧ sGate.m_confidence_threshold > 3/10) ∨
           (0 < sGate.m_amplitude_threshold ∧ sGate.m_amplitude_threshold > 1))))) :=
  ⟨rfl, by simp [sGate, sReady, putList_fresh_available],
   threshold_gating inferGate sGate 60 (3/10) 1 rfl
     (by simp [sGate, sReady, putList_fresh_available]) rfl⟩

/-- Claim C4 (amended): every completed inference emits exactly one result
triple, one value per outlet, but in the source's send order: pitch first,
then confidence, then amplitude (the claimed amplitude-first order is
refuted by the counterexample). -/
theorem emission_one_triple_pitch_first (infer : List Sample → InferOutcome)
    (s : PestoState) (p c a : ℚ) (hl : s.m_model_loaded = true)
    (hav : s.n_chunk_size ≤ s.m_in_buffer.available)
    (hinf : infer (s.m_in_buffer.get s.n_chunk_size).2.1 = InferOutcome.ok p c a) :
    ((run_inference infer s).2.map Prod.fst =
      [Outlet.pitch_output, Outlet.confidence_output, Outlet.amplitude_output]) ∧
    (run_inference infer s).2.length = 3 := by
  rw [run_inference_ok infer s p c a hl hav hinf]
  simp

/-- Witness for the C4 theorem on the concrete ready state. -/
theorem emission_one_triple_pitch_first_witness :
    sReady.m_model_loaded = true ∧
    sReady.n_chunk_size ≤ sReady.m_in_buffer.available ∧
    (((run_inference inferConst sReady).2.map Prod.fst =
       [Outlet.pitch_output, Outlet.confidence_output, Outlet.amplitude_output]) ∧
     (run_inference inferConst sReady).2.length = 3) :=
  ⟨rfl, by simp [sReady, putList_fresh_available],
   emission_one_triple_pitch_first inferConst sReady 60 1 1 rfl
     (by simp [sReady, putList_fresh_available]) rfl⟩

/-- Claim C4, counterexample: a completed inference (a full triple is
emitted) whose emission order is pitch, confidence, amplitude — not the
claimed order amplitude, confidence, pitch. -/
theorem emission_order_not_amplitude_first :
    (run_inference inferConst sReady).2.map Prod.fst =
      [Outlet.pitch_output, Outlet.confidence_output, Outlet.amplitude_output] ∧
    (run_inference inferConst sReady).2.map Prod.fst ≠
      [Outlet.amplitude_output, Outlet.confidence_output, Outlet.pitch_output] := by
  have h := run_inference_ok inferConst sReady 60 1 1 rfl
    (by simp [sReady, putList_fresh_available]) rfl
  rw [h]
  exact ⟨by simp, by simp⟩

/-- Claim C6: every chunk-size or model change (the `chunk` and `model`
message handlers both run `initialize_model`) leaves the ring buffer with
`available() = 0`; when a model load succeeds with parsed chunk size `ck`,
the new chunk size is installed and the ring buffer is resized to at least
`max(ck, 4096)`; consequently, after the change, inference cannot fire (no
message is emitted) until a full fresh chunk of the new size has been fed. -/
theorem model_change_clears_and_resizes (s : PestoState) (ck : ℕ) :
    (∀ lo : Option ℕ, (init_model s lo).m_in_buffer.available = 0) ∧
    (init_model s (some ck)).m_model_loaded = true ∧
    (init_model s (some ck)).n_chunk_size = ck ∧
    max ck 4096 ≤ (init_model s (some ck)).m_in_buffer.capacity ∧
    (∀ (ys : List Sample) (infer : List Sample → InferOutcome),
      ys.length < ck →
      (run_inference infer
        { init_model s (some ck) with
          m_in_buffer := putList (init_model s (some ck)).m_in_buffer ys }).2 = []) := by
  refine ⟨?_, rfl, rfl, ?_, ?_⟩
  · intro lo
    cases lo with
    | none => simp [init_model]
    | some ck2 => simp [init_model]
  · have h1 : (init_model s (some ck)).m_in_buffer.capacity =
        power_ceil (power_ceil (max ck 4096)) := rfl
    obtain ⟨t, ht⟩ := power_ceil_is_pow (max ck 4096)
    rw [h1, ht, power_ceil_two_pow, ← ht]
    exact le_power_ceil _
  · intro ys infer hlt
    have hav : (putList (init_model s (some ck)).m_in_buffer ys).available =
        ys.length := by
      have hw : (init_model s (some ck)).m_in_buffer.write_pos = 0 := rfl
      have hr : (init_model s (some ck)).m_in_buffer.read_pos = 0 := rfl
      simp [CircularBuffer.available, hw, hr]
    have hml : (init_model s (some ck)).m_model_loaded = true := rfl
    have hcs : (init_model s (some ck)).n_chunk_size = ck := rfl
    rw [run_inference]
    simp [hav, hlt, hml, hcs]

/-- Witness for the C6 theorem at chunk size 512 on the ready state. -/
theorem model_change_clears_and_resizes_witness :
    (∀ lo : Option ℕ, (init_model sReady lo).m_in_buffer.available = 0) ∧
    (init_model sReady (some 512)).m_model_loaded = true ∧
    (init_model sReady (some 512)).n_chunk_size = 512 ∧
    max 512 4096 ≤ (init_model sReady (some 512)).m_in_buffer.capacity ∧
    (∀ (ys : List Sample) (infer : List Sample → InferOutcome),
      ys.length < 512 →
      (run_inference infer
        { init_model sReady (some 512) with
          m_in_buffer := putList (init_model sReady (some 512)).m_in_buffer ys }).2 =
        []) :=
  model_change_clears_and_resizes sReady 512

/-- Claim C7 (amended): a bang with a model loaded (and the model call not
raising) feeds exactly 8 all-zero chunks of the current chunk size through
the model and clears the ring buffer; a DSP stop (`dspstate 0`) only clears
the buffer and feeds NO zero chunks (the claim's DSP-stop half is refuted
by the counterexample). -/
theorem bang_feeds_eight_zero_chunks (s : PestoState)
    (hl : s.m_model_loaded = true) :
    (bang_msg s).2.length = 8 ∧
    (∀ ch ∈ (bang_msg s).2, ch = List.replicate s.n_chunk_size 0) ∧
    (bang_msg s).1.m_in_buffer.available = 0 ∧
    (dspstate_msg s 0).2 = [] ∧
    (dspstate_msg s 0).1.m_in_buffer.available = 0 := by
  have hl1 : (clear_buffer s).m_model_loaded = true := hl
  refine ⟨?_, ?_, ?_, ?_, ?_⟩
  · simp [bang_msg, feed_zeros_to_model, hl1]
  · intro ch hch
    simp [bang_msg, feed_zeros_to_model, hl1] at hch
    rw [hch]
    rfl
  · simp [bang_msg, clear_buffer]
  · simp [dspstate_msg]
  · simp [dspstate_msg, clear_buffer]

/-- Witness for the C7 theorem on the concrete ready state. -/
theorem bang_feeds_eight_zero_chunks_witness :
    sReady.m_model_loaded = true ∧
    ((bang_msg sReady).2.length = 8 ∧
     (∀ ch ∈ (bang_msg sReady).2, ch = List.replicate sReady.n_chunk_size 0) ∧
     (bang_msg sReady).1.m_in_buffer.available = 0 ∧
     (dspstate_msg sReady 0).2 = [] ∧
     (dspstate_msg sReady 0).1.m_in_buffer.available = 0) :=
  ⟨rfl, bang_feeds_eight_zero_chunks sReady rfl⟩

/-- Claim C7, counterexample: a DSP stop (`dspstate 0`) on a state with a
loaded model performs zero model calls, not the claimed 8. -/
theorem dsp_stop_feeds_no_zero_chunks :
    sReady.m_model_loaded = true ∧
    (dspstate_msg sReady 0).2.length = 0 ∧ (0 : ℕ) ≠ 8 := by
  refine ⟨rfl, ?_, by norm_num⟩
  simp [dspstate_msg]

theorem find_compatible_models_mem (files : List (String × ℕ × ℕ)) (sr_k : ℕ)
    (x : String × ℕ) :
    x ∈ find_compatible_models files sr_k ↔
      ∃ f ∈ files, f.2.1 = sr_k ∧ x = (f.1, f.2.2) := by
  rw [find_compatible_models, (List.mergeSort_perm _ _).mem_iff]
  simp only [List.mem_map, List.mem_filter, beq_iff_eq]
  constructor
  · rintro ⟨f, ⟨hf, hsr⟩, hx⟩
    exact ⟨f, hf, hsr, hx.symm⟩
  · rintro ⟨f, hf, hsr, hx⟩
    exact ⟨f, ⟨hf, hsr⟩, hx.symm⟩

theorem find_compatible_models_sorted (files : List (String × ℕ × ℕ))
    (sr_k : ℕ) :
    (find_compatible_models files sr_k).Pairwise (fun a b => a.2 ≤ b.2) := by
  rw [find_compatible_models]
  have h := @List.sorted_mergeSort (String × ℕ) (fun a b => decide (a.2 ≤ b.2))
    (fun a b c hab hbc => by
      simp only [decide_eq_true_eq] at hab hbc ⊢
      omega)
    (fun a b => by
      simp only [Bool.or_eq_true, decide_eq_true_eq]
      omega)
    ((files.filter (fun f => f.2.1 == sr_k)).map (fun f => (f.1, f.2.2)))
  exact h.imp (fun hab => by simpa using hab)

/-- Claim C9: among the compatible candidates (exactly the files whose
parsed sample rate matches the stream's), the selection loads the model
whose chunk size equals a positive requested chunk size when such an exact
match exists, and otherwise — no request (target ≤ 0, the constructor
default is 0) or no exact match — the model with the smallest chunk size. -/
theorem best_model_selection (files : List (String × ℕ × ℕ)) (sr_k : ℕ)
    (target : ℤ) (hne : find_compatible_models files sr_k ≠ []) :
    ∃ m, load_best_model (find_compatible_models files sr_k) target = some m ∧
      m ∈ find_compatible_models files sr_k ∧
      (∀ x, x ∈ find_compatible_models files sr_k ↔
        ∃ f ∈ files, f.2.1 = sr_k ∧ x = (f.1, f.2.2)) ∧
      (0 < target →
        (∃ m2 ∈ find_compatible_models files sr_k, (m2.2 : ℤ) = target) →
        (m.2 : ℤ) = target) ∧
      ((¬ 0 < target ∨
        ¬ ∃ m2 ∈ find_compatible_models files sr_k, (m2.2 : ℤ) = target) →
        ∀ m2 ∈ find_compatible_models files sr_k, m.2 ≤ m2.2) := by
  have hmem := find_compatible_models_mem files sr_k
  have hpw := find_compatible_models_sorted files sr_k
  obtain ⟨m0, rest, hL0⟩ := List.exists_cons_of_ne_nil hne
  have hmin : ∀ m2 ∈ find_compatible_models files sr_k, m0.2 ≤ m2.2 := by
    intro m2 hm2
    rw [hL0] at hm2 hpw
    rcases List.mem_cons.mp hm2 with h | h
    · rw [h]
    · exact (List.pairwise_cons.mp hpw).1 m2 h
  have hie : (find_compatible_models files sr_k).isEmpty = false := by
    rw [hL0]
    rfl
  have hhead : (find_compatible_models files sr_k).head? = some m0 := by
    rw [hL0]
    rfl
  have hm0mem : m0 ∈ find_compatible_models files sr_k := by
    rw [hL0]
    exact List.mem_cons_self _ _
  by_cases ht : 0 < target
  · cases hfind : (find_compatible_models files sr_k).find?
        (fun m => (m.2 : ℤ) == target) with
    | some m =>
      refine ⟨m, ?_, List.mem_of_find?_eq_some hfind, hmem, ?_, ?_⟩
      · simp [load_best_model, hie, ht, hfind]
      · intro _ _
        have := List.find?_some hfind
        simpa using this
      · intro hdisj
        rcases hdisj with h | h
        · exact absurd ht h
        · exact absurd ⟨m, List.mem_of_find?_eq_some hfind,
            by simpa using List.find?_some hfind⟩ h
    | none =>
      refine ⟨m0, ?_, hm0mem, hmem, ?_, fun _ => hmin⟩
      · simp [load_best_model, hie, ht, hfind, hhead]
      · intro _ hex
        exfalso
        obtain ⟨m2, hm2, hm2t⟩ := hex
        have := List.find?_eq_none.mp hfind m2 hm2
        simp at this
        exact this hm2t
  · refine ⟨m0, ?_, hm0mem, hmem, fun h => absurd h ht, fun _ => hmin⟩
    simp [load_best_model, hie, ht, hhead]

theorem files0_compatible :
    find_compatible_models files0 44 = [("20250101_sr44k_h512.pt", 512)] := by
  have h : (files0.filter (fun f => f.2.1 == 44)).map (fun f => (f.1, f.2.2)) =
      [("20250101_sr44k_h512.pt", 512)] := rfl
  rw [find_compatible_models, h, List.mergeSort_singleton]

/-- Witness for the C9 theorem: one 44 kHz candidate, no requested chunk
size (target 0), the smallest-chunk candidate is selected. -/
theorem best_model_selection_witness :
    find_compatible_models files0 44 ≠ [] ∧
    (∃ m, load_best_model (find_compatible_models files0 44) 0 = some m ∧
      m ∈ find_compatible_models files0 44 ∧
      (∀ x, x ∈ find_compatible_models files0 44 ↔
        ∃ f ∈ files0, f.2.1 = 44 ∧ x = (f.1, f.2.2)) ∧
      (0 < (0 : ℤ) →
        (∃ m2 ∈ find_compatible_models files0 44, (m2.2 : ℤ) = 0) →
        (m.2 : ℤ) = 0) ∧
      ((¬ 0 < (0 : ℤ) ∨
        ¬ ∃ m2 ∈ find_compatible_models files0 44, (m2.2 : ℤ) = 0) →
        ∀ m2 ∈ find_compatible_models files0 44, m.2 ≤ m2.2)) :=
  ⟨by rw [files0_compatible]; simp,
   best_model_selection files0 44 0 (by rw [files0_compatible]; simp)⟩

/-- Claim C10, violation evidence: the filename `h2048.pt` matches the
chunk-extraction pattern of `load_model` and installs chunk size 2048, for
which `run_inference` writes index 2047 of the 1024-element
`m_model_input_buffer` — out of bounds.  The claim (and the code's own
`// Max chunk size` comment at the allocation) requires every such write to
stay within bounds, so the code contradicts its own documentation. -/
theorem model_input_buffer_overflow :
    filename_chunk "h2048.pt".toList = some 2048 ∧
    2047 ∈ model_input_write_indices 2048 ∧
    ¬ 2047 < model_input_buffer_size := by
  refine ⟨by decide, ?_, by decide⟩
  simp [model_input_write_indices]
